import Mathlib

/-!
Verification of the chiefvoice-app voice backend (src/backend/chief_bot.py).

Strings are modelled as `List Char`; Python string primitives (`lower`,
`strip`, `rstrip`, `split`, `startswith`, `endswith`, `in`, `rfind`) are
translated below.  Wall-clock timestamps and float thresholds are modelled
as rationals.
-/

/-- Python whitespace, the set used by `str.strip()` / `str.split()`. -/
def isPySpace (c : Char) : Bool :=
  c = ' ' || c = '\t' || c = '\n' || c = '\r' || c = Char.ofNat 11 || c = Char.ofNat 12

/-- `str.lower()`. -/
def pyLower (l : List Char) : List Char := l.map Char.toLower

/-- Remove leading whitespace. -/
def lstripWs (l : List Char) : List Char := l.dropWhile isPySpace

/-- Remove trailing characters satisfying `p` (generic right strip). -/
def rstripBy (p : Char → Bool) (l : List Char) : List Char :=
  (l.reverse.dropWhile p).reverse

/-- `str.strip()` (no argument: strips whitespace from both ends). -/
def pyStrip (l : List Char) : List Char := rstripBy isPySpace (lstripWs l)

/-- The punctuation characters of `rstrip("!?.,:;")` in `chief_bot.py`. -/
def isTrailPunct (c : Char) : Bool :=
  c = '!' || c = '?' || c = '.' || c = ',' || c = ':' || c = ';'

/-- `str.rstrip("!?.,:;")`. -/
def rstripPunct (l : List Char) : List Char := rstripBy isTrailPunct l

/-- Helper for `str.split()`: accumulates the current word (reversed). -/
def pySplitAux : List Char → List Char → List (List Char)
  | [], acc => if acc = [] then [] else [acc.reverse]
  | c :: cs, acc =>
    if isPySpace c then
      if acc = [] then pySplitAux cs [] else acc.reverse :: pySplitAux cs []
    else pySplitAux cs (c :: acc)

/-- `str.split()` with no argument: split on whitespace runs, no empties. -/
def pySplit (l : List Char) : List (List Char) := pySplitAux l []

/-- Python `sub in s` for strings (substring containment). -/
def hasSubstr (pat : List Char) : List Char → Bool
  | [] => pat.isPrefixOf []
  | c :: cs => pat.isPrefixOf (c :: cs) || hasSubstr pat cs

/-- An apostrophe character (used inside two farewell patterns). -/
def apos : Char := Char.ofNat 39

/-- `FAREWELL_PATTERNS` from `chief_bot.py`. -/
def FAREWELL_PATTERNS : List (List Char) :=
  [ "bye".toList, "goodbye".toList, "see you".toList, "later".toList,
    "take care".toList, "night".toList, "good night".toList,
    "gotta go".toList, "talk to you later".toList, "catch you later".toList,
    "i".toList ++ [apos] ++ "m done".toList, "end call".toList,
    "hang up".toList, "disconnect".toList,
    "that".toList ++ [apos] ++ "s all".toList,
    "thanks bye".toList, "thank you bye".toList ]

/-- The smaller farewell keyword set checked against the word set. -/
def FAREWELL_KEYWORDS : List (List Char) :=
  [ "bye".toList, "goodbye".toList, "goodnight".toList, "later".toList,
    "disconnect".toList, "hang up".toList, "end call".toList ]

/-- The shared normalization `message.lower().strip().rstrip("!?.,:;")`. -/
def normMsg (message : List Char) : List Char :=
  rstripPunct (pyStrip (pyLower message))

/-- `is_farewell` from `chief_bot.py` (lines 44-64). -/
def is_farewell (message : List Char) : Bool :=
  let msg := normMsg message
  if FAREWELL_PATTERNS.contains msg then true
  else if FAREWELL_PATTERNS.any (fun p => p.isPrefixOf msg || p.isSuffixOf msg) then true
  else if (pySplit msg).any (fun w => FAREWELL_KEYWORDS.contains w) then true
  else false

/-- `SIMPLE_CHAT_PATTERNS` from `chief_bot.py`. -/
def SIMPLE_CHAT_PATTERNS : List (List Char) :=
  [ "hi".toList, "hello".toList, "hey".toList, "howdy".toList, "hiya".toList,
    "yo".toList, "good morning".toList, "good afternoon".toList,
    "good evening".toList, "good night".toList,
    "bye".toList, "goodbye".toList, "see you".toList, "later".toList,
    "take care".toList, "night".toList,
    "thanks".toList, "thank you".toList, "appreciate it".toList, "thx".toList,
    "yes".toList, "no".toList, "yeah".toList, "yep".toList, "nope".toList,
    "sure".toList, "okay".toList, "ok".toList, "yup".toList,
    "right".toList, "correct".toList, "got it".toList, "understood".toList,
    "alright".toList, "fine".toList,
    "cool".toList, "nice".toList, "great".toList, "awesome".toList,
    "perfect".toList, "sounds good".toList ]

/-- Question words used by the short-message branch of `is_simple_chat`. -/
def QUESTION_WORDS : List (List Char) :=
  [ "what".toList, "where".toList, "when".toList, "who".toList, "why".toList,
    "how".toList, "which".toList, "check".toList, "find".toList,
    "get".toList, "show".toList, "tell".toList ]

/-- `is_simple_chat` from `chief_bot.py` (lines 82-105). -/
def is_simple_chat (message : List Char) : Bool :=
  let msg := normMsg message
  if SIMPLE_CHAT_PATTERNS.contains msg then true
  else if SIMPLE_CHAT_PATTERNS.any
      (fun p => (p ++ [' ']).isPrefixOf msg || (p ++ [',']).isPrefixOf msg) then
    !(hasSubstr " can ".toList msg || hasSubstr " could ".toList msg
      || hasSubstr " would ".toList msg || message.contains '?')
  else
    let ws := pySplit msg
    if ws.length ≤ 2 then
      if !(ws.any (fun w => QUESTION_WORDS.contains w)) && !(message.contains '?')
      then true else false
    else false

/-- The "filler"/meaningless word set ignored by echo scoring. -/
def fillerWords : Finset (List Char) :=
  ([ "the".toList, "a".toList, "an".toList, "is".toList, "are".toList,
     "was".toList, "were".toList, "to".toList, "and".toList, "or".toList,
     "i".toList, "you".toList, "it".toList ] : List (List Char)).toFinset

/-- The deduplicated word set of a string, `set(s.lower().split())`. -/
def wordSet (s : List Char) : Finset (List Char) :=
  (pySplit (pyLower s)).toFinset

/-- One iteration of the response loop in `is_echo` (lines 119-135):
empty bot word sets are skipped, as is a candidate whose meaningful word
set is empty (this is the division-by-zero guard); otherwise the overlap
ratio is compared against the threshold. -/
def echoBranch (userWords : Finset (List Char)) (threshold : ℚ)
    (botResponse : List Char) : Bool :=
  let botWords := wordSet botResponse
  if botWords = ∅ then false
  else
    let meaningfulCommon := (userWords ∩ botWords) \ fillerWords
    let meaningfulUser := userWords \ fillerWords
    if 0 < meaningfulUser.card then
      decide (threshold ≤ (meaningfulCommon.card : ℚ) / (meaningfulUser.card : ℚ))
    else false

/-- `is_echo` from `chief_bot.py` (lines 107-137).  The float overlap
ratio and threshold are modelled as rationals. -/
def is_echo (userMessage : List Char) (recentBotResponses : List (List Char))
    (threshold : ℚ) : Bool :=
  if recentBotResponses = [] then false
  else if (wordSet userMessage).card < 2 then false
  else recentBotResponses.any (echoBranch (wordSet userMessage) threshold)

/-- The per-response overlap score exactly as the spec words it: the ratio
of (candidate words ∩ response words, minus meaningless words) to
(candidate words minus meaningless words); with Lean rationals a zero
denominator yields a score of 0. -/
def specOverlapScore (candidate botResponse : List Char) : ℚ :=
  let uw := wordSet candidate
  let bw := wordSet botResponse
  (((uw ∩ bw) \ fillerWords).card : ℚ) / ((uw \ fillerWords).card : ℚ)

/-- The maximum overlap score across recent responses (0 when empty). -/
def specMaxScore (candidate : List Char) (recent : List (List Char)) : ℚ :=
  (recent.map (specOverlapScore candidate)).foldr max 0

/-! ### Streaming sentence chunker (chief_bot.py lines 739-775) -/

/-- The terminal punctuation scanned for in the stream loop (period,
exclamation mark, question mark, newline). -/
def isTermPunct (c : Char) : Bool :=
  c = '.' || c = '!' || c = '?' || c = '\n'

/-- Characters the cut extends over after terminal punctuation (space or
newline). -/
def isSpaceNl (c : Char) : Bool := c = ' ' || c = '\n'

/-- Scan left-to-right for the first terminal punctuation mark; the chunk
is everything up to and including it plus following spaces/newlines. -/
def splitFirstSentence : List Char → Option (List Char × List Char)
  | [] => none
  | c :: cs =>
    if isTermPunct c then
      some (c :: cs.takeWhile isSpaceNl, cs.dropWhile isSpaceNl)
    else
      match splitFirstSentence cs with
      | some (st, rest) => some (c :: st, rest)
      | none => none

/-- The call `text_buffer.rfind(space, 0, bound)`: the largest index
`i < bound` (and `i < length`) holding a space, as an `Option`. -/
def rfindSpace (l : List Char) : Nat → Option Nat
  | 0 => none
  | n + 1 =>
    if h : n < l.length then
      if l.get ⟨n, h⟩ = ' ' then some n else rfindSpace l n
    else rfindSpace l n

/-- Python truthiness of `s.strip()`: the text has a non-whitespace char. -/
def stripNonEmpty (l : List Char) : Bool := l.any (fun c => !(isPySpace c))

/-- One iteration of the stream loop body on an arriving fragment:
append to the buffer, cut at most one chunk (sentence punctuation first,
else the 150-length / last-space-past-50 rule), and emit the chunk only
if it is non-whitespace.  Returns the new buffer and the emitted chunks. -/
def feedFragment (buf frag : List Char) : List Char × List (List Char) :=
  let b := buf ++ frag
  match splitFirstSentence b with
  | some (st, rest) => (rest, if stripNonEmpty st then [st] else [])
  | none =>
    if 150 < b.length then
      match rfindSpace b 150 with
      | some bp =>
        if 50 < bp then
          let st := b.take (bp + 1)
          (b.drop (bp + 1), if stripNonEmpty st then [st] else [])
        else (b, [])
      | none => (b, [])
    else (b, [])

/-- Fold `feedFragment` over the incoming fragments. -/
def chunkFold : List Char → List (List Char) → List Char × List (List Char)
  | buf, [] => (buf, [])
  | buf, f :: fs =>
    let p := feedFragment buf f
    let q := chunkFold p.1 fs
    (q.1, p.2 ++ q.2)

/-- The full chunker over a finished stream: run the loop, then flush any
non-whitespace remainder as a final chunk (lines 771-775). -/
def runChunker (frags : List (List Char)) : List (List Char) :=
  let p := chunkFold [] frags
  p.2 ++ (if stripNonEmpty p.1 then [p.1] else [])

/-! ### Gateway protocol client: `stream_message` (lines 269-361) -/

/-- The frame shapes `stream_message` distinguishes, decoded from the wire
JSON: a correlated response (with `ok`, optional `payload.runId`, error
message), an assistant delta, a lifecycle-end agent event, any other agent
event, a chat event (with `state` and optional `errorMessage`), and
anything else. -/
inductive GwFrame where
  | resFrame (id : String) (ok : Bool) (runId : Option String) (errMsg : String)
  | agentDelta (runId : String) (delta : String)
  | agentLifecycleEnd (runId : String)
  | chatEvt (runId : String) (state : String) (errMsg : Option String)
  | otherFrame
  deriving DecidableEq, Repr

/-- The read loop of `stream_message`: processes frames in arrival order,
yielding assistant deltas, until a correlated terminal chat event.  An
exhausted frame list models the 120-unit read timeout.  `rid` is the
current `run_id` (None until the chat.send response arrives); the Python
truthiness guard `if run_id and payload.get("runId") == run_id` requires
a non-empty run id. -/
def streamLoop (rid : Option String) (reqId : String) :
    List GwFrame → Except String (List String)
  | [] => .error "Gateway timeout"
  | f :: rest =>
    match f with
    | .resFrame id ok runId errMsg =>
      if id = reqId then
        if ok then streamLoop runId reqId rest
        else .error ("Chat request failed: " ++ errMsg)
      else streamLoop rid reqId rest
    | .agentDelta rId d =>
      match rid with
      | some rr =>
        if rr ≠ "" && rId = rr then
          (streamLoop rid reqId rest).map (fun ds => d :: ds)
        else streamLoop rid reqId rest
      | none => streamLoop rid reqId rest
    | .agentLifecycleEnd _ => streamLoop rid reqId rest
    | .otherFrame => streamLoop rid reqId rest
    | .chatEvt rId st em =>
      match rid with
      | some rr =>
        if rr ≠ "" && rId = rr then
          if st = "final" then .ok []
          else if st = "aborted" || st = "error" then
            .error ("Chat failed: " ++ em.getD "Request failed")
          else streamLoop rid reqId rest
        else streamLoop rid reqId rest
      | none => streamLoop rid reqId rest

/-! ### Turn arbitrator state and gate (lines 594-650, 786-837, 919-943) -/

/-- The shared mutable closure state of the interceptor. -/
structure ArbState where
  recentImmediate : List (List Char)
  recentFillers : List (List Char)
  recentBotResponses : List (List Char)
  lastBotSpeechEnd : ℚ
  botIsSpeaking : Bool
  lastProcessedMessage : List Char
  processingInProgress : Bool
  deriving DecidableEq, Repr

/-- Events the arbitrator can emit towards external collaborators. -/
inductive Event where
  | stopSpeaking
  | remoteCall (msg : List Char)
  | speakChunk (text : List Char)
  | endCall
  deriving DecidableEq, Repr

/-- Outcome of the gate: the utterance is dropped, or proceeds into
processing; either way with the (possibly updated) state. -/
inductive GateResult where
  | dropped (s : ArbState)
  | proceed (s : ArbState)
  deriving DecidableEq, Repr

/-- The state carried by a gate result. -/
def grState : GateResult → ArbState
  | .dropped s => s
  | .proceed s => s

/-- The shared tail of the gate: the 1-unit post-speech cooldown check,
the strict echo check at threshold 0.4, then entry into processing
(lines 637-651). -/
def gateTail (s : ArbState) (msg : List Char) (now : ℚ) :
    GateResult × List Event :=
  if now - s.lastBotSpeechEnd < 1 then (.dropped s, [])
  else if is_echo msg s.recentBotResponses (4/10) then (.dropped s, [])
  else
    (.proceed { s with processingInProgress := true, lastProcessedMessage := msg },
     [Event.remoteCall msg])

/-- The gate of `intercept_and_forward` (lines 608-651): verbatim dedup,
concurrency guard, echo-at-0.3 while the bot speaks (a non-echo while
speaking is a barge-in that merely clears the speaking flag), then the
cooldown and strict-echo checks. -/
def gateStep (s : ArbState) (msg : List Char) (now : ℚ) :
    GateResult × List Event :=
  if msg = s.lastProcessedMessage then (.dropped s, [])
  else if s.processingInProgress then (.dropped s, [])
  else if s.botIsSpeaking then
    if is_echo msg s.recentBotResponses (3/10) then (.dropped s, [])
    else gateTail { s with botIsSpeaking := false } msg now
  else gateTail s msg now

/-- Extraction of the app-message type in `on_app_message` (lines
926-936): nested `data.t` first, falling back to top-level `type` or
`label`, with Python truthiness on the empty string. -/
def msgTypeOf (dataT topType label : Option String) : Option String :=
  let nested := match dataT with
    | some t => if t = "" then none else some t
    | none => none
  match nested with
  | some t => some t
  | none =>
    match topType with
    | some t => if t = "" then (match label with
        | some l => if l = "" then none else some l
        | none => none) else some t
    | none =>
      match label with
      | some l => if l = "" then none else some l
      | none => none

/-- `on_app_message` (lines 919-943): a `user-started-speaking` client
message queues a `StartInterruptionFrame` (the stop-playback signal). -/
def onAppMessage (dataT topType label : Option String) : List Event :=
  if msgTypeOf dataT topType label = some "user-started-speaking" then
    [Event.stopSpeaking]
  else []

/-- The successful stream-completion update (lines 786-798): append the
full response to the recent buffer (capacity 3, oldest popped), set the
cooldown timestamp `now + len/15`, clear the speaking/processing flags. -/
def completeTurn (s : ArbState) (fullResponse : List Char) (now : ℚ) : ArbState :=
  let r := s.recentBotResponses ++ [fullResponse]
  { s with
    recentBotResponses := if 3 < r.length then r.drop 1 else r,
    lastBotSpeechEnd := now + (fullResponse.length : ℚ) / 15,
    botIsSpeaking := false,
    processingInProgress := false }

/-- End of the streaming turn (lines 782-814): with zero chunks or a
whitespace-only response, fall back to the local LLM (`true` flag) with
flags reset by the `finally` block; otherwise run `completeTurn` and, if
the utterance was a farewell, schedule one call-termination event 3 units
after completion. -/
def streamCompletion (s : ArbState) (chunksSent : Nat) (fullResponse : List Char)
    (userMsg : List Char) (now : ℚ) : ArbState × Bool × List (ℚ × Event) :=
  if chunksSent = 0 || !stripNonEmpty fullResponse then
    ({ s with processingInProgress := false, botIsSpeaking := false }, true, [])
  else
    (completeTurn s fullResponse now, false,
     if is_farewell userMsg then [(now + 3, Event.endCall)] else [])

/-- The exception path of the streaming turn (lines 816-837): the
`except`/`finally` blocks reset the flags and emit no termination event. -/
def streamError (s : ArbState) : ArbState × List (ℚ × Event) :=
  ({ s with processingInProgress := false, botIsSpeaking := false }, [])

/-! ### Acknowledgment & filler timers (lines 669-714) -/

/-- `asyncio.sleep(3)` in `send_acknowledgment_after_delay`. -/
def ackSleep : ℚ := 3

/-- `asyncio.sleep(4)` in `send_filler_after_delay`; the task is created
at turn start, concurrently with the acknowledgment task (lines 687 and
714 run with no await between them). -/
def fillerSleep : ℚ := 4

/-- When (if ever) the filler phrase is spoken: the timer wakes at
`turnStart + fillerSleep` and emits only if no first response fragment
has arrived by then (`first_chunk_received` unset). -/
def fillerEmissionTime (turnStart : ℚ) (firstChunk : Option ℚ) : Option ℚ :=
  let fire := turnStart + fillerSleep
  match firstChunk with
  | none => some fire
  | some tc => if fire < tc then some fire else none

/-- Same for the acknowledgment phrase at `turnStart + ackSleep`. -/
def ackEmissionTime (turnStart : ℚ) (firstChunk : Option ℚ) : Option ℚ :=
  let fire := turnStart + ackSleep
  match firstChunk with
  | none => some fire
  | some tc => if fire < tc then some fire else none

/-! ### Supporting lemmas -/

theorem stripNonEmpty_append (a b : List Char) :
    stripNonEmpty (a ++ b) = (stripNonEmpty a || stripNonEmpty b) := by
  simp [stripNonEmpty, List.any_append]

theorem splitFirstSentence_eq_none {l : List Char}
    (h : ∀ c ∈ l, isTermPunct c = false) : splitFirstSentence l = none := by
  induction l with
  | nil => rfl
  | cons c cs ih =>
    have hc : isTermPunct c = false := h c (List.mem_cons_self c cs)
    have ihh : splitFirstSentence cs = none :=
      ih (fun d hd => h d (List.mem_cons_of_mem c hd))
    simp [splitFirstSentence, hc, ihh]

theorem splitFirstSentence_append {l st rest : List Char}
    (h : splitFirstSentence l = some (st, rest)) : st ++ rest = l := by
  induction l generalizing st rest with
  | nil => simp [splitFirstSentence] at h
  | cons c cs ih =>
    by_cases hc : isTermPunct c = true
    · simp [splitFirstSentence, hc] at h
      obtain ⟨h1, h2⟩ := h
      subst h1; subst h2
      simp [List.takeWhile_append_dropWhile]
    · simp [splitFirstSentence, hc] at h
      cases hr : splitFirstSentence cs with
      | none => rw [hr] at h; simp at h
      | some pr =>
        obtain ⟨st2, rest2⟩ := pr
        rw [hr] at h
        simp at h
        obtain ⟨h1, h2⟩ := h
        subst h1; subst h2
        have := ih hr
        simp [this]

theorem rfindSpace_ge {l : List Char} {i bp : Nat} :
    ∀ {n : Nat}, i < n → (hil : i < l.length) → l.get ⟨i, hil⟩ = ' ' →
      rfindSpace l n = some bp → i ≤ bp := by
  intro n
  induction n with
  | zero => intro h; omega
  | succ n ih =>
    intro hin hil hsp h
    rw [rfindSpace] at h
    by_cases hn : n < l.length
    · rw [dif_pos hn] at h
      by_cases hg : l.get ⟨n, hn⟩ = ' '
      · rw [if_pos hg] at h
        simp at h
        omega
      · rw [if_neg hg] at h
        have hlt : i < n := by
          rcases Nat.lt_or_ge i n with h1 | h1
          · exact h1
          · exfalso
            have : i = n := by omega
            subst this
            exact hg hsp
        exact ih hlt hil hsp h
    · rw [dif_neg hn] at h
      have hlt : i < n := by omega
      exact ih hlt hil hsp h

theorem feedFragment_eq_sentence {buf frag st rest : List Char}
    (h : splitFirstSentence (buf ++ frag) = some (st, rest)) :
    feedFragment buf frag = (rest, if stripNonEmpty st then [st] else []) := by
  simp [feedFragment, h]

theorem feedFragment_eq_cut {buf frag : List Char} {bp : Nat}
    (h1 : splitFirstSentence (buf ++ frag) = none)
    (h2 : 150 < (buf ++ frag).length)
    (h3 : rfindSpace (buf ++ frag) 150 = some bp) (h4 : 50 < bp) :
    feedFragment buf frag =
      ((buf ++ frag).drop (bp + 1),
       if stripNonEmpty ((buf ++ frag).take (bp + 1)) then
         [(buf ++ frag).take (bp + 1)] else []) := by
  have h2l : 150 < buf.length + frag.length := by simpa using h2
  simp [feedFragment, h1, h2l, h3, h4]

theorem feedFragment_eq_plain {buf frag : List Char}
    (h1 : splitFirstSentence (buf ++ frag) = none)
    (h2 : ¬ 150 < (buf ++ frag).length) :
    feedFragment buf frag = (buf ++ frag, []) := by
  have h2l : ¬ 150 < buf.length + frag.length := by simpa using h2
  simp [feedFragment, h1, h2l]

theorem feedFragment_eq_nospace {buf frag : List Char}
    (h1 : splitFirstSentence (buf ++ frag) = none)
    (h3 : rfindSpace (buf ++ frag) 150 = none) :
    feedFragment buf frag = (buf ++ frag, []) := by
  by_cases h2 : 150 < (buf ++ frag).length
  · have h2l : 150 < buf.length + frag.length := by simpa using h2
    simp [feedFragment, h1, h2l, h3]
  · exact feedFragment_eq_plain h1 h2

theorem feedFragment_eq_shortcut {buf frag : List Char} {bp : Nat}
    (h1 : splitFirstSentence (buf ++ frag) = none)
    (h3 : rfindSpace (buf ++ frag) 150 = some bp) (h4 : ¬ 50 < bp) :
    feedFragment buf frag = (buf ++ frag, []) := by
  by_cases h2 : 150 < (buf ++ frag).length
  · have h2l : 150 < buf.length + frag.length := by simpa using h2
    simp [feedFragment, h1, h2l, h3, h4]
  · exact feedFragment_eq_plain h1 h2

theorem bool_false_of_or_false_left {a b : Bool} (h : (a || b) = false) :
    a = false := by
  cases a
  · rfl
  · simp at h

theorem bool_false_of_or_false_right {a b : Bool} (h : (a || b) = false) :
    b = false := by
  cases b
  · rfl
  · simp at h

theorem feedFragment_ws {buf frag : List Char}
    (h : stripNonEmpty (buf ++ frag) = false) :
    (feedFragment buf frag).2 = [] ∧
      stripNonEmpty (feedFragment buf frag).1 = false := by
  cases hs : splitFirstSentence (buf ++ frag) with
  | some pr =>
    obtain ⟨st, rest⟩ := pr
    have heq := feedFragment_eq_sentence hs
    have hsr : st ++ rest = buf ++ frag := splitFirstSentence_append hs
    have hb : (stripNonEmpty st || stripNonEmpty rest) = false := by
      rw [← stripNonEmpty_append, hsr]; exact h
    have hb1 := bool_false_of_or_false_left hb
    have hb2 := bool_false_of_or_false_right hb
    rw [heq, hb1]
    exact ⟨rfl, hb2⟩
  | none =>
    by_cases hl : 150 < (buf ++ frag).length
    · cases hbp : rfindSpace (buf ++ frag) 150 with
      | some bp =>
        by_cases h50 : 50 < bp
        · have heq := feedFragment_eq_cut hs hl hbp h50
          have hb : (stripNonEmpty ((buf ++ frag).take (bp + 1)) ||
              stripNonEmpty ((buf ++ frag).drop (bp + 1))) = false := by
            rw [← stripNonEmpty_append, List.take_append_drop]; exact h
          have hb1 := bool_false_of_or_false_left hb
          have hb2 := bool_false_of_or_false_right hb
          rw [heq, hb1]
          exact ⟨rfl, hb2⟩
        · rw [feedFragment_eq_shortcut hs hbp h50]
          exact ⟨rfl, h⟩
      | none =>
        rw [feedFragment_eq_nospace hs hbp]
        exact ⟨rfl, h⟩
    · rw [feedFragment_eq_plain hs hl]
      exact ⟨rfl, h⟩

theorem feedFragment_keep {buf frag : List Char}
    (h : (feedFragment buf frag).2 = []) :
    stripNonEmpty (buf ++ frag) = stripNonEmpty (feedFragment buf frag).1 := by
  cases hs : splitFirstSentence (buf ++ frag) with
  | some pr =>
    obtain ⟨st, rest⟩ := pr
    have heq := feedFragment_eq_sentence hs
    have hsr : st ++ rest = buf ++ frag := splitFirstSentence_append hs
    rw [heq] at h ⊢
    cases hst : stripNonEmpty st with
    | true => rw [hst] at h; simp at h
    | false =>
      rw [← hsr, stripNonEmpty_append, hst]
      simp
  | none =>
    by_cases hl : 150 < (buf ++ frag).length
    · cases hbp : rfindSpace (buf ++ frag) 150 with
      | some bp =>
        by_cases h50 : 50 < bp
        · have heq := feedFragment_eq_cut hs hl hbp h50
          rw [heq] at h ⊢
          cases hst : stripNonEmpty ((buf ++ frag).take (bp + 1)) with
          | true => rw [hst] at h; simp at h
          | false =>
            conv_lhs => rw [← List.take_append_drop (bp + 1) (buf ++ frag)]
            rw [stripNonEmpty_append, hst]
            simp
        · rw [feedFragment_eq_shortcut hs hbp h50]
      | none => rw [feedFragment_eq_nospace hs hbp]
    · rw [feedFragment_eq_plain hs hl]

theorem chunkFold_cons (buf f : List Char) (fs : List (List Char)) :
    chunkFold buf (f :: fs) =
      ((chunkFold (feedFragment buf f).1 fs).1,
       (feedFragment buf f).2 ++ (chunkFold (feedFragment buf f).1 fs).2) := rfl

theorem chunkFold_ws :
    ∀ (frags : List (List Char)) (buf : List Char),
      stripNonEmpty (buf ++ frags.flatten) = false →
      (chunkFold buf frags).2 = [] ∧
        stripNonEmpty (chunkFold buf frags).1 = false := by
  intro frags
  induction frags with
  | nil =>
    intro buf h
    refine ⟨rfl, ?_⟩
    simpa using h
  | cons f fs ih =>
    intro buf h
    have h1 : stripNonEmpty ((buf ++ f) ++ fs.flatten) = false := by
      rw [List.append_assoc]
      simpa using h
    have hbf : stripNonEmpty (buf ++ f) = false :=
      bool_false_of_or_false_left ((stripNonEmpty_append _ _).symm.trans h1)
    have hjs : stripNonEmpty fs.flatten = false :=
      bool_false_of_or_false_right ((stripNonEmpty_append _ _).symm.trans h1)
    obtain ⟨hf2, hf1⟩ := feedFragment_ws hbf
    have hrec : stripNonEmpty ((feedFragment buf f).1 ++ fs.flatten) = false := by
      rw [stripNonEmpty_append, hf1, hjs]
      rfl
    obtain ⟨hc2, hc1⟩ := ih (feedFragment buf f).1 hrec
    rw [chunkFold_cons]
    exact ⟨by rw [hf2, hc2]; rfl, hc1⟩

theorem chunkFold_keep :
    ∀ (frags : List (List Char)) (buf : List Char),
      (chunkFold buf frags).2 = [] →
      stripNonEmpty (buf ++ frags.flatten) =
        stripNonEmpty (chunkFold buf frags).1 := by
  intro frags
  induction frags with
  | nil =>
    intro buf _
    simp [chunkFold]
  | cons f fs ih =>
    intro buf h
    rw [chunkFold_cons] at h
    have hsplit := List.append_eq_nil.mp h
    have h1 := feedFragment_keep hsplit.1
    have h2 := ih (feedFragment buf f).1 hsplit.2
    rw [chunkFold_cons]
    calc stripNonEmpty (buf ++ (f :: fs).flatten)
        = stripNonEmpty ((buf ++ f) ++ fs.flatten) := by
          simp [List.append_assoc]
      _ = (stripNonEmpty (buf ++ f) || stripNonEmpty fs.flatten) :=
          stripNonEmpty_append _ _
      _ = (stripNonEmpty (feedFragment buf f).1 || stripNonEmpty fs.flatten) := by
          rw [h1]
      _ = stripNonEmpty ((feedFragment buf f).1 ++ fs.flatten) :=
          (stripNonEmpty_append _ _).symm
      _ = stripNonEmpty (chunkFold (feedFragment buf f).1 fs).1 := h2

theorem runChunker_eq (frags : List (List Char)) :
    runChunker frags =
      (chunkFold [] frags).2 ++
        (if stripNonEmpty (chunkFold [] frags).1 then
          [(chunkFold [] frags).1] else []) := rfl

theorem runChunker_eq_nil_iff (frags : List (List Char)) :
    runChunker frags = [] ↔ stripNonEmpty frags.flatten = false := by
  constructor
  · intro h
    rw [runChunker_eq] at h
    have h2 := List.append_eq_nil.mp h
    have hflush : stripNonEmpty (chunkFold [] frags).1 = false := by
      cases hb : stripNonEmpty (chunkFold [] frags).1
      · rfl
      · rw [hb] at h2
        simp at h2
    have := chunkFold_keep frags [] h2.1
    rw [hflush] at this
    simpa using this
  · intro h
    have h0 : stripNonEmpty (([] : List Char) ++ frags.flatten) = false := by
      simpa using h
    obtain ⟨h1, h2⟩ := chunkFold_ws frags [] h0
    rw [runChunker_eq, h1, h2]
    rfl

theorem isPySpace_ofNat_letter (m : Nat) (h1 : 97 ≤ m) (h2 : m ≤ 122) :
    isPySpace (Char.ofNat m) = false := by
  interval_cases m <;> decide

theorem isPySpace_toLower_eq_false {c : Char} (h : isPySpace c = false) :
    isPySpace (Char.toLower c) = false := by
  by_cases hg : c.toNat ≥ 65 ∧ c.toNat ≤ 90
  · have heq : Char.toLower c = Char.ofNat (c.toNat + 32) := by
      unfold Char.toLower
      simp [hg]
  
    rw [heq]
    exact isPySpace_ofNat_letter (c.toNat + 32) (by omega) (by omega)
  · have heq : Char.toLower c = c := by
      unfold Char.toLower
      simp [hg]
    rw [heq]
    exact h

theorem mem_of_getLast?_eq_some {α : Type} {l : List α} {a : α}
    (h : l.getLast? = some a) : a ∈ l := by
  induction l with
  | nil => simp at h
  | cons b bs ih =>
    cases bs with
    | nil =>
      simp at h
      subst h
      simp
    | cons b2 bs2 =>
      rw [List.getLast?_cons_cons] at h
      exact List.mem_cons_of_mem _ (ih h)

theorem getLast?_dropWhile_of_ne_nil {α : Type} {p : α → Bool} {l : List α}
    (h : l.dropWhile p ≠ []) : (l.dropWhile p).getLast? = l.getLast? := by
  induction l with
  | nil => simp at h
  | cons c cs ih =>
    by_cases hc : p c = true
    · rw [List.dropWhile_cons, if_pos hc] at h ⊢
      have hcs : cs ≠ [] := by
        intro e
        subst e
        simp [List.dropWhile] at h
      rw [ih h]
      cases cs with
      | nil => exact absurd rfl hcs
      | cons d ds => rw [List.getLast?_cons_cons]
    · rw [List.dropWhile_cons, if_neg hc]

theorem rstripBy_eq_self {p : Char → Bool} {l : List Char}
    (h : ∀ c, l.getLast? = some c → p c = false) : rstripBy p l = l := by
  cases hr : l.reverse with
  | nil =>
    have hnil : l = [] := List.reverse_eq_nil_iff.mp hr
    subst hnil
    rfl
  | cons c rs =>
    have hl : l.getLast? = some c := by
      rw [← List.head?_reverse, hr]
      rfl
    have hpc : p c = false := h c hl
    unfold rstripBy
    rw [hr, List.dropWhile_cons, if_neg (by simp [hpc])]
    rw [← hr, List.reverse_reverse]

theorem rstripPunct_append_bang (L : List Char) :
    rstripPunct (L ++ ['!']) = rstripPunct L := by
  unfold rstripPunct rstripBy
  have hrev : (L ++ ['!']).reverse = '!' :: L.reverse := by simp
  rw [hrev, List.dropWhile_cons, if_pos (by decide)]

theorem lstripWs_append_of_ne_nil {m xs : List Char} (h : lstripWs m ≠ []) :
    lstripWs (m ++ xs) = lstripWs m ++ xs := by
  unfold lstripWs at h ⊢
  rw [List.dropWhile_append, if_neg (by simpa using h)]

theorem normMsg_append_bang {t : List Char}
    (h : ∀ c, t.getLast? = some c → isPySpace c = false) :
    normMsg (t ++ ['!']) = normMsg t := by
  cases hr : t.reverse with
  | nil =>
    have ht : t = [] := List.reverse_eq_nil_iff.mp hr
    subst ht
    decide
  | cons c rs =>
    have hl : t.getLast? = some c := by
      rw [← List.head?_reverse, hr]
      rfl
    have hc : isPySpace c = false := h c hl
    have hm : pyLower (t ++ ['!']) = pyLower t ++ ['!'] := by
      unfold pyLower
      rw [List.map_append]
      norm_num
      decide
    have hml : (pyLower t).getLast? = some (Char.toLower c) := by
      unfold pyLower
      rw [List.getLast?_map, hl]
      rfl
    have hmlns : isPySpace (Char.toLower c) = false := isPySpace_toLower_eq_false hc
    have hLne : lstripWs (pyLower t) ≠ [] := by
      intro he
      have hall := List.dropWhile_eq_nil_iff.mp he
      have hmem : Char.toLower c ∈ pyLower t := mem_of_getLast?_eq_some hml
      have := hall _ hmem
      rw [hmlns] at this
      simp at this
    have hLlast : (lstripWs (pyLower t)).getLast? = (pyLower t).getLast? :=
      getLast?_dropWhile_of_ne_nil hLne
    have hstep1 : lstripWs (pyLower t ++ ['!']) = lstripWs (pyLower t) ++ ['!'] :=
      lstripWs_append_of_ne_nil hLne
    have hstep2 : rstripBy isPySpace (lstripWs (pyLower t) ++ ['!']) =
        lstripWs (pyLower t) ++ ['!'] := by
      apply rstripBy_eq_self
      intro d hd
      rw [List.getLast?_concat] at hd
      have : d = '!' := by
        injection hd with h1
        exact h1.symm
      subst this
      decide
    have hstep3 : rstripBy isPySpace (lstripWs (pyLower t)) = lstripWs (pyLower t) := by
      apply rstripBy_eq_self
      intro d hd
      rw [hLlast, hml] at hd
      have : d = Char.toLower c := by
        injection hd with h1
        exact h1.symm
      subst this
      exact hmlns
    show rstripPunct (pyStrip (pyLower (t ++ ['!']))) = rstripPunct (pyStrip (pyLower t))
    unfold pyStrip
    rw [hm, hstep1, hstep2, hstep3, rstripPunct_append_bang]

theorem le_foldr_max (t b : ℚ) (l : List ℚ) :
    t ≤ l.foldr max b ↔ t ≤ b ∨ ∃ x ∈ l, t ≤ x := by
  induction l with
  | nil => simp
  | cons x xs ih =>
    simp only [List.foldr_cons, le_max_iff, ih, List.mem_cons]
    constructor
    · rintro (h | h | ⟨y, hy, hty⟩)
      · exact Or.inr ⟨x, Or.inl rfl, h⟩
      · exact Or.inl h
      · exact Or.inr ⟨y, Or.inr hy, hty⟩
    · rintro (h | ⟨y, (rfl | hy), hty⟩)
      · exact Or.inr (Or.inl h)
      · exact Or.inl hty
      · exact Or.inr (Or.inr ⟨y, hy, hty⟩)

theorem echoBranch_iff (user bot : List Char) (t : ℚ) (ht : 0 < t) :
    (echoBranch (wordSet user) t bot = true ↔ t ≤ specOverlapScore user bot) := by
  simp only [echoBranch, specOverlapScore]
  by_cases hb : wordSet bot = ∅
  · rw [if_pos hb]
    simp only [hb, Finset.inter_empty, Finset.empty_sdiff, Finset.card_empty,
      Nat.cast_zero, zero_div]
    constructor
    · intro h
      simp at h
    · intro h
      exact absurd h (not_le.mpr ht)
  · rw [if_neg hb]
    by_cases hm : 0 < ((wordSet user) \ fillerWords).card
    · rw [if_pos hm]
      simp [decide_eq_true_iff]
    · rw [if_neg hm]
      have h0 : ((wordSet user) \ fillerWords).card = 0 := by omega
      rw [h0]
      simp only [Nat.cast_zero, div_zero]
      constructor
      · intro h
        simp at h
      · intro h
        exact absurd h (not_le.mpr ht)

/-! ### Claim theorems -/

/-- C1: the filler timer is started concurrently with the acknowledgment
timer at turn start, so with no response fragment it fires at
turn start + 4 time-units — not at the 3 + 4 = 7 units the spec states —
and it speaks a filler even when the first fragment arrives at 5 units
(before the claimed 7-unit mark). -/
theorem C1_filler_timer_fires_at_four :
    fillerEmissionTime 0 none = some 4 ∧
    fillerEmissionTime 0 (some 5) = some 4 ∧
    ackEmissionTime 0 none = some 3 ∧
    ackSleep + fillerSleep = 7 ∧ (4 : ℚ) ≠ 7 := by
  have h45 : (0 : ℚ) + fillerSleep < 5 := by norm_num [fillerSleep]
  refine ⟨?_, ?_, ?_, ?_, ?_⟩
  · simp [fillerEmissionTime, fillerSleep]
  · simp [fillerEmissionTime, h45, fillerSleep]
    norm_num
  · simp [ackEmissionTime, ackSleep]
  · norm_num [ackSleep, fillerSleep]
  · norm_num

/-- C2 counterexample: an utterance arriving while the bot speaks that is
not echo at threshold 0.3 proceeds into processing, but the gate emits no
stop-playback event while handling it. -/
def c2state : ArbState :=
  ⟨[], [], [], 0, true, [], false⟩

/-- The barge-in utterance used for the C2 counterexample. -/
def c2msg : List Char := "what time is it".toList

/-- C2 is refuted: in `c2state` (Speaking) the non-echo utterance `c2msg`
is handled — it enters processing — yet no stop-speaking event is emitted
as part of handling it. -/
theorem C2_counterexample :
    c2state.botIsSpeaking = true ∧
    is_echo c2msg c2state.recentBotResponses (3/10) = false ∧
    (grState (gateStep c2state c2msg 10).1).processingInProgress = true ∧
    Event.stopSpeaking ∉ (gateStep c2state c2msg 10).2 := by
  have hne : c2msg ≠ c2state.lastProcessedMessage := by decide
  have hecho3 : is_echo c2msg c2state.recentBotResponses (3/10) = false := by decide
  have hecho4 : is_echo c2msg c2state.recentBotResponses (4/10) = false := by decide
  have hcool : ¬ ((10 : ℚ) - c2state.lastBotSpeechEnd < 1) := by
    norm_num [c2state]
  have hb1 : c2state.processingInProgress = false := rfl
  have hb2 : c2state.botIsSpeaking = true := rfl
  have hstep : gateStep c2state c2msg 10 =
      (GateResult.proceed
        { c2state with botIsSpeaking := false, processingInProgress := true,
                       lastProcessedMessage := c2msg },
       [Event.remoteCall c2msg]) := by
    simp [gateStep, gateTail, hne, hecho3, hecho4, hcool, hb1, hb2]
  refine ⟨rfl, hecho3, ?_, ?_⟩
  · rw [hstep]
    rfl
  · rw [hstep]
    simp

/-- C2 amended: a non-echo utterance during bot speech clears the
speaking flag (the Speaking to Processing path) but emits no stop-playback
event; the interruption event is emitted only by the separate
`on_app_message` handler on a client `user-started-speaking` message. -/
theorem C2_barge_in_no_stop_signal (s : ArbState) (msg : List Char) (now : ℚ)
    (hspeak : s.botIsSpeaking = true)
    (hecho : is_echo msg s.recentBotResponses (3/10) = false)
    (hdedup : msg ≠ s.lastProcessedMessage)
    (hproc : s.processingInProgress = false) :
    (grState (gateStep s msg now).1).botIsSpeaking = false ∧
    Event.stopSpeaking ∉ (gateStep s msg now).2 ∧
    onAppMessage (some "user-started-speaking") none none = [Event.stopSpeaking] := by
  have h1 : gateStep s msg now = gateTail { s with botIsSpeaking := false } msg now := by
    simp [gateStep, hdedup, hproc, hspeak, hecho]
  have h2 : (grState (gateTail { s with botIsSpeaking := false } msg now).1).botIsSpeaking
        = false ∧
      Event.stopSpeaking ∉ (gateTail { s with botIsSpeaking := false } msg now).2 := by
    unfold gateTail
    by_cases hcool : now - s.lastBotSpeechEnd < 1
    · simp [hcool, grState]
    · by_cases hecho4 : is_echo msg s.recentBotResponses (4/10) = true
      · simp [hcool, hecho4, grState]
      · simp [hcool, hecho4, grState]
  exact ⟨by rw [h1]; exact h2.1, by rw [h1]; exact h2.2, by decide⟩

/-- Concrete state for the C2 amended-claim witness (the recent response
is whitespace-only, so the echo check short-circuits). -/
def c2wstate : ArbState :=
  ⟨[], [], ["   ".toList], 100, true, [], false⟩

/-- Witness for the C2 amended claim at a concrete barge-in. -/
theorem C2_barge_in_no_stop_signal_witness :
    (grState (gateStep c2wstate "stop please now".toList 200).1).botIsSpeaking = false ∧
    Event.stopSpeaking ∉ (gateStep c2wstate "stop please now".toList 200).2 ∧
    onAppMessage (some "user-started-speaking") none none = [Event.stopSpeaking] :=
  C2_barge_in_no_stop_signal c2wstate "stop please now".toList 200
    (by decide) (by decide) (by decide) (by decide)

/-- C6: an utterance equal to the immediately preceding processed text is
dropped by the verbatim-dedup gate: the state is returned unchanged and no
event (in particular no remote call) is emitted. -/
theorem C6_verbatim_dedup_drop (s : ArbState) (msg : List Char) (now : ℚ)
    (h : msg = s.lastProcessedMessage) :
    gateStep s msg now = (GateResult.dropped s, []) := by
  simp [gateStep, h]

/-- Concrete state for the C6 witness. -/
def c6state : ArbState :=
  ⟨[], [], [], 0, false, "check my email".toList, false⟩

/-- Witness for C6 at a concrete repeated utterance. -/
theorem C6_verbatim_dedup_drop_witness :
    gateStep c6state "check my email".toList 5 = (GateResult.dropped c6state, []) :=
  C6_verbatim_dedup_drop c6state "check my email".toList 5 rfl

/-- C9 counterexample: for the text `please take care. ` (with trailing
space), appending an exclamation mark flips the farewell classification
from true to false, because `rstrip` removes trailing whitespace and
punctuation in one fixed order. -/
theorem C9_counterexample :
    is_farewell "please take care. ".toList = true ∧
    is_farewell ("please take care. ".toList ++ ['!']) = false := by
  refine ⟨by decide, by decide⟩

/-- C9 amended: appending a trailing exclamation mark never changes the
farewell classification provided the text does not end in whitespace. -/
theorem C9_trailing_bang_invariant (t : List Char)
    (h : ∀ c, t.getLast? = some c → isPySpace c = false) :
    is_farewell t = is_farewell (t ++ ['!']) := by
  have hn := normMsg_append_bang h
  simp only [is_farewell, hn]

/-- Witness for the C9 amended claim at a concrete farewell. -/
theorem C9_trailing_bang_invariant_witness :
    is_farewell "bye".toList = is_farewell ("bye".toList ++ ['!']) :=
  C9_trailing_bang_invariant "bye".toList (by
    intro c hc
    have h2 : ("bye".toList).getLast? = some 'e' := by decide
    rw [h2] at hc
    have : c = 'e' := by injection hc with h3; exact h3.symm
    subst this
    decide)

/-- C10: the classifier heuristics are total Lean functions (they return a
boolean on every input); a candidate whose meaningful word set is empty is
skipped by the echo scorer (the division-by-zero guard) and contributes no
echo, and the empty candidate is never echo. -/
theorem C10_heuristics_total (s : List Char) (recent : List (List Char)) (t : ℚ) :
    (is_farewell s = true ∨ is_farewell s = false) ∧
    (is_simple_chat s = true ∨ is_simple_chat s = false) ∧
    ((wordSet s \ fillerWords) = ∅ → is_echo s recent t = false) ∧
    is_echo [] recent t = false := by
  refine ⟨Bool.eq_false_or_eq_true _, Bool.eq_false_or_eq_true _, ?_, ?_⟩
  · intro h
    unfold is_echo
    by_cases hr : recent = []
    · simp [hr]
    · rw [if_neg hr]
      by_cases hc : (wordSet s).card < 2
      · rw [if_pos hc]
      · rw [if_neg hc]
        apply List.any_eq_false.mpr
        intro bot _
        simp only [echoBranch]
        by_cases hbw : wordSet bot = ∅
        · simp [hbw]
        · rw [if_neg hbw]
          simp [h]
  · unfold is_echo
    by_cases hr : recent = []
    · simp [hr]
    · have hcard : (wordSet ([] : List Char)).card < 2 := by decide
      simp [hr, hcard]

/-- Witness for C10: an all-meaningless candidate is not echo even
against an overlapping response. -/
theorem C10_heuristics_total_witness :
    is_echo "the a is".toList ["hello there. ".toList] (3/10) = false :=
  (C10_heuristics_total "the a is".toList ["hello there. ".toList] (3/10)).2.2.1
    (by decide)

/-- The deltas yielded before a correlated final chat event are exactly
the assistant deltas, in order (nothing is re-emitted at the end). -/
theorem streamLoop_yields_deltas (r q : String) (hr : r ≠ "") (ds : List String)
    (rest : List GwFrame) :
    streamLoop (some r) q
      (ds.map (fun d => GwFrame.agentDelta r d) ++ GwFrame.chatEvt r "final" none :: rest)
      = Except.ok ds := by
  induction ds with
  | nil => simp [streamLoop, hr]
  | cons d ds ih => simp [streamLoop, hr, ih, Except.map]

/-- C3: the stream loop of `stream_message` ends normally exactly at a
correlated final chat event, yielding only the deltas seen before it and
nothing after it; a correlated aborted or error chat event raises with the
carried message (or the default); and a lifecycle-end agent event does not
terminate the loop. -/
theorem C3_stream_terminal (r q m : String) (rest rest2 : List GwFrame)
    (ds : List String) (hr : r ≠ "") :
    streamLoop (some r) q
        (ds.map (fun d => GwFrame.agentDelta r d) ++
          GwFrame.chatEvt r "final" none :: rest)
      = Except.ok ds ∧
    streamLoop (some r) q (GwFrame.chatEvt r "final" none :: rest)
      = streamLoop (some r) q (GwFrame.chatEvt r "final" none :: rest2) ∧
    streamLoop (some r) q (GwFrame.chatEvt r "aborted" (some m) :: rest)
      = Except.error ("Chat failed: " ++ m) ∧
    streamLoop (some r) q (GwFrame.chatEvt r "error" (some m) :: rest)
      = Except.error ("Chat failed: " ++ m) ∧
    streamLoop (some r) q (GwFrame.chatEvt r "aborted" none :: rest)
      = Except.error ("Chat failed: " ++ "Request failed") ∧
    streamLoop (some r) q (GwFrame.agentLifecycleEnd r :: rest)
      = streamLoop (some r) q rest := by
  refine ⟨streamLoop_yields_deltas r q hr ds rest, ?_, ?_, ?_, ?_, ?_⟩ <;>
    simp [streamLoop, hr]

/-- Witness for C3 at a concrete frame trace. -/
theorem C3_stream_terminal_witness :
    streamLoop (some "r1") "chat-1"
        ((["You have", " three meetings."].map (fun d => GwFrame.agentDelta "r1" d)) ++
          GwFrame.chatEvt "r1" "final" none :: [])
      = Except.ok ["You have", " three meetings."] ∧
    streamLoop (some "r1") "chat-1" (GwFrame.chatEvt "r1" "final" none :: [])
      = streamLoop (some "r1") "chat-1" (GwFrame.chatEvt "r1" "final" none :: [GwFrame.otherFrame]) ∧
    streamLoop (some "r1") "chat-1" (GwFrame.chatEvt "r1" "aborted" (some "boom") :: [])
      = Except.error ("Chat failed: " ++ "boom") ∧
    streamLoop (some "r1") "chat-1" (GwFrame.chatEvt "r1" "error" (some "boom") :: [])
      = Except.error ("Chat failed: " ++ "boom") ∧
    streamLoop (some "r1") "chat-1" (GwFrame.chatEvt "r1" "aborted" none :: [])
      = Except.error ("Chat failed: " ++ "Request failed") ∧
    streamLoop (some "r1") "chat-1" (GwFrame.agentLifecycleEnd "r1" :: [])
      = streamLoop (some "r1") "chat-1" [] :=
  C3_stream_terminal "r1" "chat-1" "boom" [] [GwFrame.otherFrame]
    ["You have", " three meetings."] (by decide)

/-- The 200-character counterexample input to C4: 149 letters followed by
51 spaces.  It has no terminal punctuation and a space past offset 50. -/
def c4bad : List Char := List.replicate 149 'a' ++ List.replicate 51 ' '

set_option maxRecDepth 8000 in
/-- C4 is refuted: `c4bad` satisfies the hypotheses of the claim (200
characters, no terminal punctuation, a space past offset 50), yet the
chunker emits only ONE chunk — the whitespace-only remainder is dropped by
the flush guard instead of being emitted as a second final chunk. -/
theorem C4_counterexample :
    c4bad.length = 200 ∧
    (∀ c ∈ c4bad, isTermPunct c = false) ∧
    (∃ i : Fin c4bad.length, 50 < i.val ∧ c4bad.get i = ' ') ∧
    (runChunker [c4bad]).length = 1 := by
  refine ⟨by decide, by decide, by decide, by decide⟩

/-- C4 amended: a 200-character fragment with no terminal punctuation and
a space at an offset strictly between 50 and 150 is cut at the last space
before offset 150, and the remainder is flushed as a second final chunk —
provided both pieces contain a non-whitespace character. -/
theorem C4_long_fragment_two_chunks (s : List Char) (bp : Nat)
    (h200 : s.length = 200)
    (hnp : ∀ c ∈ s, isTermPunct c = false)
    (hsp : ∃ i : Fin s.length, 50 < i.val ∧ i.val < 150 ∧ s.get i = ' ')
    (hbp : rfindSpace s 150 = some bp)
    (h1 : stripNonEmpty (s.take (bp + 1)) = true)
    (h2 : stripNonEmpty (s.drop (bp + 1)) = true) :
    50 < bp ∧ runChunker [s] = [s.take (bp + 1), s.drop (bp + 1)] := by
  obtain ⟨i, hi50, hi150, hisp⟩ := hsp
  have hget : s.get ⟨i.val, i.isLt⟩ = ' ' := by
    simpa using hisp
  have hbp50 : 50 < bp :=
    lt_of_lt_of_le hi50 (rfindSpace_ge hi150 i.isLt hget hbp)
  refine ⟨hbp50, ?_⟩
  have hs0 : splitFirstSentence (([] : List Char) ++ s) = none := by
    rw [List.nil_append]
    exact splitFirstSentence_eq_none hnp
  have hlen : 150 < (([] : List Char) ++ s).length := by
    simp [h200]
  have hbp0 : rfindSpace (([] : List Char) ++ s) 150 = some bp := by
    simpa using hbp
  have hfeed := feedFragment_eq_cut hs0 hlen hbp0 hbp50
  rw [runChunker_eq, chunkFold_cons, hfeed]
  simp [chunkFold, h1, h2]

/-- The concrete 200-character input for the C4 amended-claim witness:
100 letters, a space at offset 100, then 99 letters. -/
def c4wit : List Char := List.replicate 100 'a' ++ [' '] ++ List.replicate 99 'b'

set_option maxRecDepth 8000 in
/-- Witness for the C4 amended claim: the chunker cuts `c4wit` at the
space (offset 100) and flushes the remainder. -/
theorem C4_long_fragment_two_chunks_witness :
    50 < 100 ∧ runChunker [c4wit] = [c4wit.take 101, c4wit.drop 101] :=
  C4_long_fragment_two_chunks c4wit 100 (by decide) (by decide) (by decide)
    (by decide) (by decide) (by decide)

/-- C5 counterexample: the claimed iff fails at threshold 0.  The
candidate `hello world` has two words and the recent list `[three
spaces]` is non-empty, so the claim applies; the maximum overlap score is
0, which is at least the threshold 0, so the claim predicts echo — but
`is_echo` is false, because a response with an empty word set is skipped
by the loop and can never report echo at any threshold. -/
theorem C5_counterexample :
    (wordSet "hello world".toList).card = 2 ∧
    (["   ".toList] : List (List Char)) ≠ [] ∧
    is_echo "hello world".toList ["   ".toList] 0 = false ∧
    (0 : ℚ) ≤ specMaxScore "hello world".toList ["   ".toList] := by
  refine ⟨by decide, by decide, by decide, ?_⟩
  unfold specMaxScore
  exact (le_foldr_max 0 0 _).mpr (Or.inl le_rfl)

/-- C5 amended: for a candidate with at least two distinct words, a
non-empty list of recent responses and a POSITIVE threshold, `is_echo` is
true exactly when the maximum per-response overlap score reaches the
threshold; with no recent responses, or fewer than two candidate words,
it is always false (at any threshold). -/
theorem C5_echo_iff_max_overlap (candidate : List Char)
    (recent : List (List Char)) (t : ℚ) :
    (recent ≠ [] → 2 ≤ (wordSet candidate).card → 0 < t →
      (is_echo candidate recent t = true ↔ t ≤ specMaxScore candidate recent)) ∧
    is_echo candidate [] t = false ∧
    ((wordSet candidate).card < 2 → is_echo candidate recent t = false) := by
  refine ⟨?_, ?_, ?_⟩
  · intro h1 h2 ht
    unfold is_echo
    rw [if_neg h1, if_neg (by omega)]
    rw [List.any_eq_true]
    unfold specMaxScore
    rw [le_foldr_max]
    constructor
    · rintro ⟨bot, hmem, hb⟩
      exact Or.inr ⟨specOverlapScore candidate bot, List.mem_map_of_mem _ hmem,
        (echoBranch_iff candidate bot t ht).mp hb⟩
    · rintro (h | ⟨x, hx, htx⟩)
      · exact absurd h (not_le.mpr ht)
      · obtain ⟨bot, hmem, rfl⟩ := List.mem_map.mp hx
        exact ⟨bot, hmem, (echoBranch_iff candidate bot t ht).mpr htx⟩
  · simp [is_echo]
  · intro h
    unfold is_echo
    by_cases hr : recent = []
    · simp [hr]
    · rw [if_neg hr, if_pos h]

/-- Witness for C5 at a concrete echo pair. -/
theorem C5_echo_iff_max_overlap_witness :
    is_echo "you have three meetings".toList
        ["You have three meetings today".toList] (3/10) = true ↔
      (3/10 : ℚ) ≤ specMaxScore "you have three meetings".toList
        ["You have three meetings today".toList] :=
  (C5_echo_iff_max_overlap "you have three meetings".toList
      ["You have three meetings today".toList] (3/10)).1
    (by decide) (by decide) (by norm_num)

/-- C7: when a stream completes with at least one chunk emitted, the
cooldown timestamp is set to now plus the response length divided by 15,
it is never in the past at the moment of setting, and the full response is
appended to the recent-responses buffer. -/
theorem C7_cooldown_on_completion (s : ArbState) (ds : List (List Char))
    (user : List Char) (now : ℚ)
    (h : 0 < (runChunker ds).length) :
    (streamCompletion s (runChunker ds).length ds.flatten user now).1.lastBotSpeechEnd
        = now + ((ds.flatten).length : ℚ) / 15 ∧
    now ≤ (streamCompletion s (runChunker ds).length ds.flatten user now).1.lastBotSpeechEnd ∧
    (streamCompletion s (runChunker ds).length ds.flatten user now).1.recentBotResponses.getLast?
        = some ds.flatten := by
  have hne : runChunker ds ≠ [] := by
    intro e
    rw [e] at h
    simp at h
  have hs : stripNonEmpty ds.flatten = true := by
    cases hb : stripNonEmpty ds.flatten
    · exact absurd ((runChunker_eq_nil_iff ds).mpr hb) hne
    · rfl
  have hlen0 : ¬ ((runChunker ds).length = 0) := by
    simpa [List.length_eq_zero] using hne
  have hcomp : streamCompletion s (runChunker ds).length ds.flatten user now
      = (completeTurn s ds.flatten now, false,
         if is_farewell user then [(now + 3, Event.endCall)] else []) := by
    simp [streamCompletion, hlen0, hs]
  rw [hcomp]
  refine ⟨rfl, ?_, ?_⟩
  · show now ≤ (completeTurn s ds.flatten now).lastBotSpeechEnd
    have heq : (completeTurn s ds.flatten now).lastBotSpeechEnd
        = now + ((ds.flatten).length : ℚ) / 15 := rfl
    rw [heq]
    have hn : (0 : ℚ) ≤ ((ds.flatten).length : ℚ) / 15 :=
      div_nonneg (Nat.cast_nonneg _) (by norm_num)
    linarith
  · show (if 3 < (s.recentBotResponses ++ [ds.flatten]).length then
        (s.recentBotResponses ++ [ds.flatten]).drop 1
      else s.recentBotResponses ++ [ds.flatten]).getLast? = some ds.flatten
    by_cases h3 : 3 < (s.recentBotResponses ++ [ds.flatten]).length
    · rw [if_pos h3]
      have hlen1 : 1 ≤ s.recentBotResponses.length := by
        simp [List.length_append] at h3
        omega
      rw [List.drop_append_of_le_length hlen1, List.getLast?_concat]
    · rw [if_neg h3, List.getLast?_concat]

/-- Concrete state for the C7 witness. -/
def c7state : ArbState :=
  ⟨[], [], ["old response".toList], 0, true, [], true⟩

/-- Witness for C7 on a one-sentence stream completing at time 2. -/
theorem C7_cooldown_on_completion_witness :
    (streamCompletion c7state (runChunker ["hi.".toList]).length
        (List.flatten ["hi.".toList]) "x".toList 2).1.lastBotSpeechEnd
      = 2 + (((List.flatten ["hi.".toList]).length : ℚ)) / 15 ∧
    (2 : ℚ) ≤ (streamCompletion c7state (runChunker ["hi.".toList]).length
        (List.flatten ["hi.".toList]) "x".toList 2).1.lastBotSpeechEnd ∧
    (streamCompletion c7state (runChunker ["hi.".toList]).length
        (List.flatten ["hi.".toList]) "x".toList 2).1.recentBotResponses.getLast?
      = some (List.flatten ["hi.".toList]) :=
  C7_cooldown_on_completion c7state ["hi.".toList] "x".toList 2 (by decide)

/-- C8: on a farewell turn, a stream completing with content emits exactly
one call-termination event, scheduled 3 time-units after completion; an
empty (whitespace-only) response or an exception emits none. -/
theorem C8_farewell_end_call (s : ArbState) (user : List Char) (now : ℚ)
    (ds : List (List Char)) (hf : is_farewell user = true) :
    (stripNonEmpty ds.flatten = true →
      (streamCompletion s (runChunker ds).length ds.flatten user now).2.2
        = [(now + 3, Event.endCall)]) ∧
    (stripNonEmpty ds.flatten = false →
      (streamCompletion s (runChunker ds).length ds.flatten user now).2.2 = []) ∧
    (streamError s).2 = [] := by
  refine ⟨?_, ?_, rfl⟩
  · intro hs
    have hne : runChunker ds ≠ [] := by
      intro e
      have hz := (runChunker_eq_nil_iff ds).mp e
      rw [hs] at hz
      simp at hz
    have hlen0 : ¬ ((runChunker ds).length = 0) := by
      simpa [List.length_eq_zero] using hne
    simp [streamCompletion, hlen0, hs, hf]
  · intro hs
    simp [streamCompletion, hs]

/-- Concrete state for the C8 witness. -/
def c8state : ArbState :=
  ⟨[], [], [], 0, false, [], false⟩

/-- Witness for C8: a farewell turn with a non-empty response schedules a
single end-call event 3 units after completion. -/
theorem C8_farewell_end_call_witness :
    (streamCompletion c8state (runChunker ["Okay, bye!".toList]).length
        (List.flatten ["Okay, bye!".toList]) "bye".toList 0).2.2
      = [((0 : ℚ) + 3, Event.endCall)] :=
  (C8_farewell_end_call c8state "bye".toList 0 ["Okay, bye!".toList]
    (by decide)).1 (by decide)
